import Mathlib

/-!
Verification of `src/lib/agent-state-loader.ts`.

The file shallowly embeds the agent-state-loader module of the repository:
a workaround layer that intercepts the `loadAgentState` GraphQL operation,
fetches conversation state from an external agent over HTTP, and reshapes
the result.  The embedding models

* JSON-representable values (`JVal`) together with executable models of the
  JavaScript built-ins `JSON.stringify` (`jsonStringify`) and `JSON.parse`
  (`jsonParse`); machine floats are restricted to integers, which is the
  only numeric shape the loader itself ever produces;
* JavaScript runtime values for inbound payloads (`JSVal`, which adds
  `undefined`), truthiness, `typeof`, property access and the
  short-circuiting `&&` / `||` / `?.` operators;
* the five exported functions of the module: `isLoadAgentStateQuery`,
  `extractThreadId`, `extractAgentName`, `loadStateFromAgent`
  (parameterised by the outcome of its single outbound `fetch`) and
  `createLoadStateResponse`.
-/

/-- JSON-representable values.  Numbers are modelled as integers: the loader
only ever serialises message objects coming from `JSON.parse` and the
round-trip claims do not depend on non-integral numerals. -/
inductive JVal where
  | jNull : JVal
  | jBool : Bool → JVal
  | jNum : Int → JVal
  | jStr : String → JVal
  | jArr : List JVal → JVal
  | jObj : List (String × JVal) → JVal

/-- Decimal digit character for a value below ten. -/
def digitCh : Nat → Char
  | 0 => '0'
  | 1 => '1'
  | 2 => '2'
  | 3 => '3'
  | 4 => '4'
  | 5 => '5'
  | 6 => '6'
  | 7 => '7'
  | 8 => '8'
  | _ => '9'

/-- Decimal digit characters of a natural number, most significant first. -/
def natToChars (n : Nat) : List Char :=
  if n < 10 then [digitCh n]
  else natToChars (n / 10) ++ [digitCh (n % 10)]
decreasing_by exact Nat.div_lt_self (by omega) (by omega)

/-- Decimal rendering of an integer, as `JSON.stringify` prints integral
numbers. -/
def intToChars (n : Int) : List Char :=
  if n < 0 then '-' :: natToChars n.natAbs else natToChars n.natAbs

/-- Lower-case hexadecimal digit character for a value below sixteen. -/
def hexDigitCh (n : Nat) : Char :=
  if n < 10 then digitCh n
  else if n = 10 then 'a'
  else if n = 11 then 'b'
  else if n = 12 then 'c'
  else if n = 13 then 'd'
  else if n = 14 then 'e'
  else 'f'

/-- Escape of a single character inside a JSON string literal, following the
`QuoteJSONString` algorithm used by `JSON.stringify`: quote and backslash get
two-character escapes, the five named control characters get theirs, every
other control character becomes a `\u00XX` escape, and all remaining
characters stand for themselves. -/
def escCh (c : Char) : List Char :=
  if c = '"' then ['\\', '"']
  else if c = '\\' then ['\\', '\\']
  else if c = '\x08' then ['\\', 'b']
  else if c = '\x09' then ['\\', 't']
  else if c = '\x0a' then ['\\', 'n']
  else if c = '\x0c' then ['\\', 'f']
  else if c = '\x0d' then ['\\', 'r']
  else if c.toNat < 32 then
    ['\\', 'u', '0', '0', hexDigitCh (c.toNat / 16), hexDigitCh (c.toNat % 16)]
  else [c]

/-- Escape of a whole string body (no surrounding quotes). -/
def escStr (cs : List Char) : List Char := cs.flatMap escCh

mutual
/-- Character stream produced by `JSON.stringify` (compact form, no
indentation argument) on a JSON value. -/
def strL : JVal → List Char
  | .jNull => ['n', 'u', 'l', 'l']
  | .jBool true => ['t', 'r', 'u', 'e']
  | .jBool false => ['f', 'a', 'l', 's', 'e']
  | .jNum n => intToChars n
  | .jStr s => '"' :: escStr s.data ++ ['"']
  | .jArr [] => ['[', ']']
  | .jArr (v :: vs) => '[' :: (strL v ++ strElems vs) ++ [']']
  | .jObj [] => ['{', '}']
  | .jObj (f :: fs) => '{' :: (strField f ++ strFields fs) ++ ['}']

/-- Comma-separated continuation of an array body. -/
def strElems : List JVal → List Char
  | [] => []
  | v :: vs => ',' :: strL v ++ strElems vs

/-- One `"key":value` member of an object body. -/
def strField : String × JVal → List Char
  | (k, v) => '"' :: escStr k.data ++ '"' :: ':' :: strL v

/-- Comma-separated continuation of an object body. -/
def strFields : List (String × JVal) → List Char
  | [] => []
  | f :: fs => ',' :: strField f ++ strFields fs
end

/-- Model of `JSON.stringify` on JSON-representable values. -/
def jsonStringify (v : JVal) : String := String.mk (strL v)

mutual
/-- Fuel bound used by the parser round-trip proofs: enough fuel to parse
the printed form of a value. -/
def sizeJ : JVal → Nat
  | .jNull => 1
  | .jBool _ => 1
  | .jNum _ => 1
  | .jStr _ => 1
  | .jArr vs => sizeElemsJ vs + 1
  | .jObj fs => sizeFieldsJ fs + 1

/-- Fuel bound for an array body. -/
def sizeElemsJ : List JVal → Nat
  | [] => 0
  | v :: vs => sizeJ v + sizeElemsJ vs + 1

/-- Fuel bound for an object body. -/
def sizeFieldsJ : List (String × JVal) → Nat
  | [] => 0
  | f :: fs => sizeJ f.2 + sizeFieldsJ fs + 1
end

/-- JSON insignificant whitespace. -/
def isWsCh (c : Char) : Bool :=
  c = ' ' || c = '\x09' || c = '\x0a' || c = '\x0d'

/-- Skip insignificant whitespace. -/
def skipWs : List Char → List Char
  | [] => []
  | c :: cs => if isWsCh c then skipWs cs else c :: cs

/-- Decimal digit test. -/
def isDigitCh (c : Char) : Bool := 48 ≤ c.toNat && c.toNat ≤ 57

/-- Hexadecimal digit test. -/
def isHexCh (c : Char) : Bool :=
  isDigitCh c || (97 ≤ c.toNat && c.toNat ≤ 102) || (65 ≤ c.toNat && c.toNat ≤ 70)

/-- Numeric value of a hexadecimal digit character. -/
def hexValCh (c : Char) : Nat :=
  if isDigitCh c then c.toNat - 48
  else if 97 ≤ c.toNat then c.toNat - 87
  else c.toNat - 55

/-- Accumulating decimal-digit reader: consumes the longest digit prefix. -/
def readDigits (acc : Nat) : List Char → Nat × List Char
  | [] => (acc, [])
  | c :: cs =>
    if isDigitCh c then readDigits (acc * 10 + (c.toNat - 48)) cs
    else (acc, c :: cs)

/-- Prepend a character to the string part of a string-body parse result. -/
def consStr (c : Char) : Option (List Char × List Char) → Option (List Char × List Char)
  | some (s, rest) => some (c :: s, rest)
  | none => none

/-- Parser for the body of a JSON string literal (after the opening quote),
returning the decoded characters and the input remaining after the closing
quote.  Handles the two-character escapes, `\uXXXX` escapes, and rejects raw
control characters, as `JSON.parse` does. -/
def parseStrBody : List Char → Option (List Char × List Char)
  | [] => none
  | c :: cs =>
    if c = '"' then some ([], cs)
    else if c = '\\' then
      match cs with
      | [] => none
      | e :: cs2 =>
        if e = '"' then consStr '"' (parseStrBody cs2)
        else if e = '\\' then consStr '\\' (parseStrBody cs2)
        else if e = '/' then consStr '/' (parseStrBody cs2)
        else if e = 'b' then consStr '\x08' (parseStrBody cs2)
        else if e = 'f' then consStr '\x0c' (parseStrBody cs2)
        else if e = 'n' then consStr '\x0a' (parseStrBody cs2)
        else if e = 'r' then consStr '\x0d' (parseStrBody cs2)
        else if e = 't' then consStr '\x09' (parseStrBody cs2)
        else if e = 'u' then
          match cs2 with
          | h1 :: h2 :: h3 :: h4 :: cs3 =>
            if isHexCh h1 && isHexCh h2 && isHexCh h3 && isHexCh h4 then
              consStr
                (Char.ofNat
                  (hexValCh h1 * 4096 + hexValCh h2 * 256 + hexValCh h3 * 16 + hexValCh h4))
                (parseStrBody cs3)
            else none
          | _ => none
        else none
    else if c.toNat < 32 then none
    else consStr c (parseStrBody cs)

mutual
/-- Fuel-indexed recursive-descent parser for a JSON value, the model of
`JSON.parse`.  Returns the value and the unconsumed remainder. -/
def parseVal : Nat → List Char → Option (JVal × List Char)
  | 0, _ => none
  | fuel + 1, cs =>
    match skipWs cs with
    | [] => none
    | c :: rest =>
      if isDigitCh c then
        match readDigits 0 (c :: rest) with
        | (n, rest2) => some (.jNum (Int.ofNat n), rest2)
      else if c = '-' then
        match rest with
        | [] => none
        | d :: rest2 =>
          if isDigitCh d then
            match readDigits 0 (d :: rest2) with
            | (n, rest3) => some (.jNum (-(Int.ofNat n)), rest3)
          else none
      else if c = '"' then
        match parseStrBody rest with
        | some (s, rest2) => some (.jStr (String.mk s), rest2)
        | none => none
      else if c = '[' then
        match skipWs rest with
        | [] => none
        | d :: rest2 =>
          if d = ']' then some (.jArr [], rest2)
          else
            match parseElems fuel (d :: rest2) with
            | some (vs, rest3) => some (.jArr vs, rest3)
            | none => none
      else if c = '{' then
        match skipWs rest with
        | [] => none
        | d :: rest2 =>
          if d = '}' then some (.jObj [], rest2)
          else
            match parseFields fuel (d :: rest2) with
            | some (fs, rest3) => some (.jObj fs, rest3)
            | none => none
      else
        match c :: rest with
        | 'n' :: 'u' :: 'l' :: 'l' :: rest2 => some (.jNull, rest2)
        | 't' :: 'r' :: 'u' :: 'e' :: rest2 => some (.jBool true, rest2)
        | 'f' :: 'a' :: 'l' :: 's' :: 'e' :: rest2 => some (.jBool false, rest2)
        | _ => none

/-- Parser for a non-empty array body, consuming the closing bracket. -/
def parseElems : Nat → List Char → Option (List JVal × List Char)
  | 0, _ => none
  | fuel + 1, cs =>
    match parseVal fuel cs with
    | none => none
    | some (v, rest) =>
      match skipWs rest with
      | ',' :: rest2 =>
        match parseElems fuel rest2 with
        | some (vs, rest3) => some (v :: vs, rest3)
        | none => none
      | ']' :: rest2 => some ([v], rest2)
      | _ => none

/-- Parser for a non-empty object body, consuming the closing brace. -/
def parseFields : Nat → List Char → Option (List (String × JVal) × List Char)
  | 0, _ => none
  | fuel + 1, cs =>
    match skipWs cs with
    | '"' :: rest =>
      match parseStrBody rest with
      | none => none
      | some (k, rest2) =>
        match skipWs rest2 with
        | ':' :: rest3 =>
          match parseVal fuel rest3 with
          | none => none
          | some (v, rest4) =>
            match skipWs rest4 with
            | ',' :: rest5 =>
              match parseFields fuel rest5 with
              | some (fs, rest6) => some ((String.mk k, v) :: fs, rest6)
              | none => none
            | '}' :: rest5 => some ([(String.mk k, v)], rest5)
            | _ => none
        | _ => none
    | _ => none
end

/-- Model of `JSON.parse`: parse a complete value, requiring that nothing but
whitespace remains, and reject otherwise (the real built-in throws a
`SyntaxError`, modelled as `none`). -/
def jsonParse (s : String) : Option JVal :=
  match parseVal (s.data.length + 1) s.data with
  | some (v, rest) => if skipWs rest = [] then some v else none
  | none => none

/-- Input that does not begin with a decimal digit; the longest-digit-prefix
number reader stops exactly at such a boundary. -/
def noDigitStart : List Char → Bool
  | [] => true
  | c :: _ => !isDigitCh c

/-! ### Round-trip: `jsonParse` inverts `jsonStringify`

These lemmas follow the usual `parse (serialize x ++ suffix) = some (x, suffix)`
scheme, with a fold-based read-back for decimal numerals. -/

theorem stringMk_data (s : String) : String.mk s.data = s := by
  cases s
  rfl

theorem skipWs_cons_of_not_ws {c : Char} (cs : List Char) (h : isWsCh c = false) :
    skipWs (c :: cs) = c :: cs := by
  simp [skipWs, h]

theorem digitCh_toNat {d : Nat} (h : d < 10) : (digitCh d).toNat = 48 + d := by
  interval_cases d <;> rfl

theorem isDigitCh_digitCh {d : Nat} (h : d < 10) : isDigitCh (digitCh d) = true := by
  interval_cases d <;> rfl

theorem natToChars_all_digits (n : Nat) : ∀ c ∈ natToChars n, isDigitCh c = true := by
  induction n using Nat.strong_induction_on with
  | _ n ih =>
    by_cases h : n < 10
    · rw [natToChars]
      simp only [h, if_true, List.mem_singleton]
      rintro c rfl
      exact isDigitCh_digitCh h
    · rw [natToChars]
      simp only [h, if_false, List.mem_append, List.mem_singleton]
      rintro c (hc | rfl)
      · exact ih (n / 10) (Nat.div_lt_self (by omega) (by omega)) c hc
      · exact isDigitCh_digitCh (Nat.mod_lt _ (by omega))

theorem natToChars_ne_nil (n : Nat) : natToChars n ≠ [] := by
  rw [natToChars]
  split <;> simp

theorem not_ws_of_digit {c : Char} (h : isDigitCh c = true) : isWsCh c = false := by
  simp only [isWsCh, Bool.or_eq_false_iff, decide_eq_false_iff_not]
  refine ⟨⟨⟨?_, ?_⟩, ?_⟩, ?_⟩ <;> rintro rfl <;> simp [isDigitCh] at h

theorem readDigits_append (ds : List Char) (rest : List Char) (acc : Nat)
    (hds : ∀ c ∈ ds, isDigitCh c = true) (hrest : noDigitStart rest = true) :
    readDigits acc (ds ++ rest) =
      (ds.foldl (fun a c => a * 10 + (c.toNat - 48)) acc, rest) := by
  induction ds generalizing acc with
  | nil =>
    cases rest with
    | nil => simp [readDigits]
    | cons c cs =>
      simp only [noDigitStart, Bool.not_eq_true'] at hrest
      simp [readDigits, hrest]
  | cons c ds ih =>
    have hc : isDigitCh c = true := hds c (by simp)
    simp only [List.cons_append, readDigits, hc, if_true, List.foldl_cons]
    exact ih _ (fun d hd => hds d (List.mem_cons_of_mem _ hd))

theorem foldl_natToChars (n : Nat) : ∀ acc : Nat,
    (natToChars n).foldl (fun a c => a * 10 + (c.toNat - 48)) acc =
      acc * 10 ^ (natToChars n).length + n := by
  induction n using Nat.strong_induction_on with
  | _ n ih =>
    intro acc
    by_cases h : n < 10
    · rw [natToChars]
      simp [h, digitCh_toNat h]
    · rw [natToChars]
      simp only [h, if_false, List.foldl_append, List.foldl_cons, List.foldl_nil,
        List.length_append, List.length_singleton]
      rw [ih (n / 10) (Nat.div_lt_self (by omega) (by omega)) acc,
        digitCh_toNat (Nat.mod_lt _ (by omega)), pow_succ]
      have hmod : 10 * (n / 10) + n % 10 = n := Nat.div_add_mod n 10
      ring_nf
      omega

theorem readDigits_natToChars (n : Nat) (rest : List Char)
    (h : noDigitStart rest = true) :
    readDigits 0 (natToChars n ++ rest) = (n, rest) := by
  rw [readDigits_append _ _ _ (natToChars_all_digits n) h, foldl_natToChars]
  simp

theorem char_eq_of_toNat {c d : Char} (h : c.toNat = d.toNat) : c = d := by
  have h2 := congrArg Char.ofNat h
  rwa [Char.ofNat_toNat, Char.ofNat_toNat] at h2

theorem hexDigitCh_isHex {d : Nat} (h : d < 16) : isHexCh (hexDigitCh d) = true := by
  interval_cases d <;> rfl

theorem hexDigitCh_val {d : Nat} (h : d < 16) : hexValCh (hexDigitCh d) = d := by
  interval_cases d <;> rfl

theorem parseStrBody_escCh (c : Char) (k s rest : List Char)
    (hk : parseStrBody k = some (s, rest)) :
    parseStrBody (escCh c ++ k) = some (c :: s, rest) := by
  by_cases h1 : c = '"'
  · subst h1
    rw [show escCh '"' = ['\\', '"'] from rfl, List.cons_append, List.cons_append,
      List.nil_append, parseStrBody.eq_def]
    simp [hk, consStr]
  by_cases h2 : c = '\\'
  · subst h2
    rw [show escCh '\\' = ['\\', '\\'] from rfl, List.cons_append, List.cons_append,
      List.nil_append, parseStrBody.eq_def]
    simp [hk, consStr]
  by_cases h3 : c = '\x08'
  · subst h3
    rw [show escCh '\x08' = ['\\', 'b'] from rfl, List.cons_append, List.cons_append,
      List.nil_append, parseStrBody.eq_def]
    simp [hk, consStr]
  by_cases h4 : c = '\x09'
  · subst h4
    rw [show escCh '\x09' = ['\\', 't'] from rfl, List.cons_append, List.cons_append,
      List.nil_append, parseStrBody.eq_def]
    simp [hk, consStr]
  by_cases h5 : c = '\x0a'
  · subst h5
    rw [show escCh '\x0a' = ['\\', 'n'] from rfl, List.cons_append, List.cons_append,
      List.nil_append, parseStrBody.eq_def]
    simp [hk, consStr]
  by_cases h6 : c = '\x0c'
  · subst h6
    rw [show escCh '\x0c' = ['\\', 'f'] from rfl, List.cons_append, List.cons_append,
      List.nil_append, parseStrBody.eq_def]
    simp [hk, consStr]
  by_cases h7 : c = '\x0d'
  · subst h7
    rw [show escCh '\x0d' = ['\\', 'r'] from rfl, List.cons_append, List.cons_append,
      List.nil_append, parseStrBody.eq_def]
    simp [hk, consStr]
  by_cases h8 : c.toNat < 32
  · have hesc : escCh c =
        ['\\', 'u', '0', '0', hexDigitCh (c.toNat / 16), hexDigitCh (c.toNat % 16)] := by
      simp [escCh, h1, h2, h3, h4, h5, h6, h7, h8]
    have hhi : c.toNat / 16 < 16 := by omega
    have hlo : c.toNat % 16 < 16 := Nat.mod_lt _ (by omega)
    have hhex0 : isHexCh '0' = true := by decide
    have hval0 : hexValCh '0' = 0 := by decide
    rw [hesc]
    simp only [List.cons_append, List.nil_append]
    rw [parseStrBody.eq_def]
    simp only [hhex0, hexDigitCh_isHex hhi, hexDigitCh_isHex hlo,
      hexDigitCh_val hhi, hexDigitCh_val hlo, hval0]
    norm_num
    rw [show c.toNat / 16 * 16 + c.toNat % 16 = c.toNat by omega, Char.ofNat_toNat]
    simp [hk, consStr]
  · have hesc : escCh c = [c] := by
      simp [escCh, h1, h2, h3, h4, h5, h6, h7, h8]
    rw [hesc, List.cons_append, List.nil_append, parseStrBody.eq_def]
    simp [h1, h2, h8, hk, consStr]

theorem parseStrBody_escStr (s : List Char) (rest : List Char) :
    parseStrBody (escStr s ++ '"' :: rest) = some (s, rest) := by
  induction s with
  | nil =>
    rw [show escStr [] = [] from rfl, List.nil_append, parseStrBody.eq_def]
    simp
  | cons c s ih =>
    have hstep : escStr (c :: s) = escCh c ++ escStr s := by
      simp [escStr]
    rw [hstep, List.append_assoc]
    exact parseStrBody_escCh c _ s rest ih

theorem parseVal_lit_null (fuel : Nat) (rest : List Char) :
    parseVal (fuel + 1) (['n', 'u', 'l', 'l'] ++ rest) = some (.jNull, rest) := rfl

theorem parseVal_lit_true (fuel : Nat) (rest : List Char) :
    parseVal (fuel + 1) (['t', 'r', 'u', 'e'] ++ rest) = some (.jBool true, rest) := rfl

theorem parseVal_lit_false (fuel : Nat) (rest : List Char) :
    parseVal (fuel + 1) (['f', 'a', 'l', 's', 'e'] ++ rest) = some (.jBool false, rest) := rfl

theorem parseVal_str_lem (fuel : Nat) (s rest : List Char) :
    parseVal (fuel + 1) ('"' :: (escStr s ++ '"' :: rest)) = some (.jStr (String.mk s), rest) := by
  show (match parseStrBody (escStr s ++ '"' :: rest) with
        | some (t, r2) => some (JVal.jStr (String.mk t), r2)
        | none => none) = some (.jStr (String.mk s), rest)
  rw [parseStrBody_escStr]

theorem parseVal_num_nonneg (fuel : Nat) (m : Nat) (rest : List Char)
    (hnd : noDigitStart rest = true) :
    parseVal (fuel + 1) (natToChars m ++ rest) = some (.jNum (Int.ofNat m), rest) := by
  obtain ⟨d, ds, hd⟩ : ∃ d ds, natToChars m = d :: ds := by
    cases h : natToChars m with
    | nil => exact absurd h (natToChars_ne_nil _)
    | cons d ds => exact ⟨d, ds, rfl⟩
  have hdd : isDigitCh d = true := natToChars_all_digits _ d (by rw [hd]; simp)
  rw [hd, List.cons_append, parseVal.eq_def]
  dsimp only
  rw [skipWs_cons_of_not_ws _ (not_ws_of_digit hdd)]
  simp only [hdd, if_true]
  rw [← List.cons_append, ← hd, readDigits_natToChars m rest hnd]

theorem parseVal_num_neg (fuel : Nat) (m : Nat) (rest : List Char)
    (hnd : noDigitStart rest = true) :
    parseVal (fuel + 1) ('-' :: (natToChars m ++ rest)) =
      some (.jNum (-(Int.ofNat m)), rest) := by
  obtain ⟨d, ds, hd⟩ : ∃ d ds, natToChars m = d :: ds := by
    cases h : natToChars m with
    | nil => exact absurd h (natToChars_ne_nil _)
    | cons d ds => exact ⟨d, ds, rfl⟩
  have hdd : isDigitCh d = true := natToChars_all_digits _ d (by rw [hd]; simp)
  rw [parseVal.eq_def]
  dsimp only
  rw [skipWs_cons_of_not_ws _ (by decide), hd, List.cons_append]
  simp only [hdd, if_true, show isDigitCh '-' = false from rfl, Bool.false_eq_true, if_false,
    show ('-' : Char) = '-' from rfl]
  rw [← List.cons_append, ← hd, readDigits_natToChars m rest hnd]

theorem headBoolSplit {c : Char}
    (h : (isWsCh c || decide (c = ']') || decide (c = '}')) = false) :
    isWsCh c = false ∧ c ≠ ']' ∧ c ≠ '}' := by
  simp only [Bool.or_eq_false_iff, decide_eq_false_iff_not] at h
  exact ⟨h.1.1, h.1.2, h.2⟩

theorem strL_head_spec (v : JVal) :
    ∃ c cs, strL v = c :: cs ∧ isWsCh c = false ∧ c ≠ ']' ∧ c ≠ '}' := by
  cases v with
  | jNull => exact ⟨'n', _, rfl, headBoolSplit (by decide)⟩
  | jBool b =>
    cases b with
    | true => exact ⟨'t', _, rfl, headBoolSplit (by decide)⟩
    | false => exact ⟨'f', _, rfl, headBoolSplit (by decide)⟩
  | jNum n =>
    by_cases hn : n < 0
    · refine ⟨'-', natToChars n.natAbs, ?_, headBoolSplit (by decide)⟩
      simp [strL, intToChars, hn]
    · obtain ⟨d, ds, hd⟩ : ∃ d ds, natToChars n.natAbs = d :: ds := by
        cases h : natToChars n.natAbs with
        | nil => exact absurd h (natToChars_ne_nil _)
        | cons d ds => exact ⟨d, ds, rfl⟩
      have hdd : isDigitCh d = true := natToChars_all_digits _ d (by rw [hd]; simp)
      refine ⟨d, ds, ?_, not_ws_of_digit hdd, ?_, ?_⟩
      · rw [show strL (.jNum n) = intToChars n from rfl, intToChars, if_neg hn, hd]
      · rintro rfl; simp [isDigitCh] at hdd
      · rintro rfl; simp [isDigitCh] at hdd
  | jStr s => exact ⟨'"', _, rfl, headBoolSplit (by decide)⟩
  | jArr vs =>
    cases vs with
    | nil => exact ⟨'[', _, rfl, headBoolSplit (by decide)⟩
    | cons v vs => exact ⟨'[', _, rfl, headBoolSplit (by decide)⟩
  | jObj fs =>
    cases fs with
    | nil => exact ⟨'{', _, rfl, headBoolSplit (by decide)⟩
    | cons f fs => exact ⟨'{', _, rfl, headBoolSplit (by decide)⟩

mutual
theorem sizeJ_le (v : JVal) : sizeJ v ≤ (strL v).length := by
  cases v with
  | jNull => simp [sizeJ, strL]
  | jBool b => cases b <;> simp [sizeJ, strL]
  | jNum n =>
    have h : strL (.jNum n) ≠ [] := by
      by_cases hn : n < 0 <;>
        simp [strL, intToChars, hn, natToChars_ne_nil]
    have hpos : 0 < (strL (.jNum n)).length := List.length_pos.mpr h
    simp only [sizeJ]
    omega
  | jStr s => simp [sizeJ, strL]
  | jArr vs =>
    cases vs with
    | nil => simp [sizeJ, sizeElemsJ, strL]
    | cons v vs =>
      have h1 := sizeJ_le v
      have h2 := sizeElemsJ_le vs
      simp only [sizeJ, sizeElemsJ, strL, List.length_cons, List.length_append,
        List.length_singleton, List.length_nil]
      omega
  | jObj fs =>
    cases fs with
    | nil => simp [sizeJ, sizeFieldsJ, strL]
    | cons f fs =>
      have h1 := sizeJ_le f.2
      have h2 := sizeFieldsJ_le fs
      have h3 : (strField f).length = (escStr f.1.data).length + (strL f.2).length + 3 := by
        cases f with
        | mk k w => simp [strField]; omega
      simp only [sizeJ, sizeFieldsJ, strL, List.length_cons, List.length_append,
        List.length_singleton, List.length_nil]
      cases f with
      | mk k w =>
        simp only [h3] at *
        omega

theorem sizeElemsJ_le (vs : List JVal) : sizeElemsJ vs ≤ (strElems vs).length := by
  cases vs with
  | nil => simp [sizeElemsJ, strElems]
  | cons v vs =>
    have h1 := sizeJ_le v
    have h2 := sizeElemsJ_le vs
    simp only [sizeElemsJ, strElems, List.length_cons, List.length_append]
    omega

theorem sizeFieldsJ_le (fs : List (String × JVal)) : sizeFieldsJ fs ≤ (strFields fs).length := by
  cases fs with
  | nil => simp [sizeFieldsJ, strFields]
  | cons f fs =>
    have h1 := sizeJ_le f.2
    have h2 := sizeFieldsJ_le fs
    have h3 : (strField f).length = (escStr f.1.data).length + (strL f.2).length + 3 := by
      cases f with
      | mk k w => simp [strField]; omega
    simp only [sizeFieldsJ, strFields, List.length_cons, List.length_append, h3]
    omega
end

theorem sizeJ_pos (v : JVal) : 1 ≤ sizeJ v := by
  cases v <;> simp [sizeJ]

theorem parse_strL_aux : ∀ fuel : Nat,
    (∀ v rest, sizeJ v ≤ fuel → noDigitStart rest = true →
        parseVal fuel (strL v ++ rest) = some (v, rest)) ∧
    (∀ v vs rest, sizeJ v + sizeElemsJ vs + 1 ≤ fuel →
        parseElems fuel (strL v ++ (strElems vs ++ ']' :: rest)) = some (v :: vs, rest)) ∧
    (∀ k w fs rest, sizeJ w + sizeFieldsJ fs + 1 ≤ fuel →
        parseFields fuel (strField (k, w) ++ (strFields fs ++ '}' :: rest)) =
          some ((k, w) :: fs, rest)) := by
  intro fuel
  induction fuel with
  | zero =>
    refine ⟨?_, ?_, ?_⟩
    · intro v rest hsz _
      have := sizeJ_pos v
      omega
    · intro v vs rest hsz
      have := sizeJ_pos v
      omega
    · intro k w fs rest hsz
      have := sizeJ_pos w
      omega
  | succ fuel ih =>
    obtain ⟨ihA, ihB, ihC⟩ := ih
    refine ⟨?_, ?_, ?_⟩
    · intro v rest hsz hnd
      cases v with
      | jNull => exact parseVal_lit_null fuel rest
      | jBool b =>
        cases b with
        | true => exact parseVal_lit_true fuel rest
        | false => exact parseVal_lit_false fuel rest
      | jNum n =>
        by_cases hn : n < 0
        · have hs : strL (.jNum n) = '-' :: natToChars n.natAbs := by
            rw [show strL (.jNum n) = intToChars n from rfl, intToChars, if_pos hn]
          rw [hs, List.cons_append, parseVal_num_neg fuel n.natAbs rest hnd,
            show -(Int.ofNat n.natAbs) = n by rw [Int.ofNat_eq_coe]; omega]
        · have hs : strL (.jNum n) = natToChars n.natAbs := by
            rw [show strL (.jNum n) = intToChars n from rfl, intToChars, if_neg hn]
          rw [hs, parseVal_num_nonneg fuel n.natAbs rest hnd,
            show Int.ofNat n.natAbs = n by rw [Int.ofNat_eq_coe]; omega]
      | jStr s =>
        have hs : strL (.jStr s) ++ rest = '"' :: (escStr s.data ++ '"' :: rest) := by
          show ('"' :: escStr s.data ++ ['"']) ++ rest = _
          simp
        rw [hs, parseVal_str_lem, stringMk_data]
      | jArr vs =>
        cases vs with
        | nil => rfl
        | cons v vs =>
          have hre : strL (.jArr (v :: vs)) ++ rest
              = '[' :: (strL v ++ (strElems vs ++ ']' :: rest)) := by
            show ('[' :: (strL v ++ strElems vs) ++ [']']) ++ rest = _
            simp
          rw [hre]
          show (match skipWs (strL v ++ (strElems vs ++ ']' :: rest)) with
                | [] => none
                | d :: rest2 =>
                  if d = ']' then some (JVal.jArr [], rest2)
                  else
                    match parseElems fuel (d :: rest2) with
                    | some (vs2, rest3) => some (JVal.jArr vs2, rest3)
                    | none => none) = some (JVal.jArr (v :: vs), rest)
          obtain ⟨c, cs, hc, hws, hbr, _⟩ := strL_head_spec v
          rw [hc, List.cons_append, skipWs_cons_of_not_ws _ hws]
          try dsimp only
          rw [if_neg hbr, ← List.cons_append, ← hc]
          have hsz2 : sizeJ v + sizeElemsJ vs + 1 ≤ fuel := by
            simp only [sizeJ, sizeElemsJ] at hsz
            omega
          rw [ihB v vs rest hsz2]
      | jObj fs =>
        cases fs with
        | nil => rfl
        | cons f fs =>
          obtain ⟨k, w⟩ := f
          have hre : strL (.jObj ((k, w) :: fs)) ++ rest
              = '{' :: (strField (k, w) ++ (strFields fs ++ '}' :: rest)) := by
            show ('{' :: (strField (k, w) ++ strFields fs) ++ ['}']) ++ rest = _
            simp
          rw [hre]
          show (match skipWs (strField (k, w) ++ (strFields fs ++ '}' :: rest)) with
                | [] => none
                | d :: rest2 =>
                  if d = '}' then some (JVal.jObj [], rest2)
                  else
                    match parseFields fuel (d :: rest2) with
                    | some (fs2, rest3) => some (JVal.jObj fs2, rest3)
                    | none => none) = some (JVal.jObj ((k, w) :: fs), rest)
          have hf : strField (k, w) ++ (strFields fs ++ '}' :: rest)
              = '"' :: (escStr k.data ++ '"' :: ':' :: (strL w ++ (strFields fs ++ '}' :: rest))) := by
            show ('"' :: escStr k.data ++ '"' :: ':' :: strL w) ++ (strFields fs ++ '}' :: rest) = _
            simp
          rw [hf, skipWs_cons_of_not_ws _ (by decide)]
          try dsimp only
          rw [if_neg (by decide : ¬('"' : Char) = '}'), ← hf]
          have hsz2 : sizeJ w + sizeFieldsJ fs + 1 ≤ fuel := by
            simp only [sizeJ, sizeFieldsJ] at hsz
            omega
          rw [ihC k w fs rest hsz2]
    · intro v vs rest hsz
      have hnd : noDigitStart (strElems vs ++ ']' :: rest) = true := by
        cases vs with
        | nil => rfl
        | cons v2 vs2 => rfl
      rw [parseElems.eq_def]
      try dsimp only
      rw [ihA v (strElems vs ++ ']' :: rest) (by omega) hnd]
      try dsimp only
      cases vs with
      | nil => rfl
      | cons v2 vs2 =>
        have he : strElems (v2 :: vs2) ++ ']' :: rest
            = ',' :: (strL v2 ++ (strElems vs2 ++ ']' :: rest)) := by
          show (',' :: strL v2 ++ strElems vs2) ++ ']' :: rest = _
          simp
        rw [he, skipWs_cons_of_not_ws _ (by decide)]
        have hsz2 : sizeJ v2 + sizeElemsJ vs2 + 1 ≤ fuel := by
          have := sizeJ_pos v
          simp only [sizeElemsJ] at hsz
          omega
        simp only [ihB v2 vs2 rest hsz2]
    · intro k w fs rest hsz
      rw [parseFields.eq_def]
      try dsimp only
      have hf : strField (k, w) ++ (strFields fs ++ '}' :: rest)
          = '"' :: (escStr k.data ++ '"' :: ':' :: (strL w ++ (strFields fs ++ '}' :: rest))) := by
        show ('"' :: escStr k.data ++ '"' :: ':' :: strL w) ++ (strFields fs ++ '}' :: rest) = _
        simp
      rw [hf, skipWs_cons_of_not_ws _ (by decide)]
      simp only [show escStr k.data ++ '"' :: ':' :: (strL w ++ (strFields fs ++ '}' :: rest))
          = escStr k.data ++ '"' :: (':' :: (strL w ++ (strFields fs ++ '}' :: rest))) from rfl,
        parseStrBody_escStr]
      rw [skipWs_cons_of_not_ws _ (by decide)]
      have hnd : noDigitStart (strFields fs ++ '}' :: rest) = true := by
        cases fs with
        | nil => rfl
        | cons f2 fs2 => rfl
      simp only [ihA w (strFields fs ++ '}' :: rest) (by omega) hnd]
      cases fs with
      | nil =>
        rw [show strFields ([] : List (String × JVal)) ++ '}' :: rest = '}' :: rest from rfl]
        rw [skipWs_cons_of_not_ws _ (by decide)]
        simp only [stringMk_data]
      | cons f2 fs2 =>
        obtain ⟨k2, w2⟩ := f2
        have he : strFields ((k2, w2) :: fs2) ++ '}' :: rest
            = ',' :: (strField (k2, w2) ++ (strFields fs2 ++ '}' :: rest)) := by
          show (',' :: strField (k2, w2) ++ strFields fs2) ++ '}' :: rest = _
          simp
        rw [he, skipWs_cons_of_not_ws _ (by decide)]
        have hsz2 : sizeJ w2 + sizeFieldsJ fs2 + 1 ≤ fuel := by
          have := sizeJ_pos w
          simp only [sizeFieldsJ] at hsz
          omega
        simp only [ihC k2 w2 fs2 rest hsz2, stringMk_data]

/-- The JSON printer/parser round trip: `jsonParse` recovers exactly the value
serialised by `jsonStringify`. -/
theorem jsonParse_jsonStringify (v : JVal) : jsonParse (jsonStringify v) = some v := by
  show (match parseVal ((strL v).length + 1) (strL v) with
        | some (w, rest) => if skipWs rest = [] then some w else none
        | none => none) = some v
  have h := (parse_strL_aux ((strL v).length + 1)).1 v []
    (le_trans (sizeJ_le v) (Nat.le_succ _)) rfl
  rw [List.append_nil] at h
  rw [h]
  rfl

/-! ### JavaScript runtime values and the payload helpers -/

/-- JavaScript runtime values as far as the loader inspects them: the
JSON-representable shapes plus `undefined`.  Inbound request bodies are
parsed JSON, so functions and symbols never reach this code path. -/
inductive JSVal where
  | undefined : JSVal
  | null : JSVal
  | bool : Bool → JSVal
  | num : Int → JSVal
  | str : String → JSVal
  | arr : List JSVal → JSVal
  | obj : List (String × JSVal) → JSVal

/-- JavaScript truthiness (`NaN` is unrepresentable in the integer number
model; every other falsy value is covered). -/
def truthy : JSVal → Bool
  | .undefined => false
  | .null => false
  | .bool b => b
  | .num n => n != 0
  | .str s => s != ""
  | .arr _ => true
  | .obj _ => true

/-- JavaScript `typeof`. -/
def typeOf : JSVal → String
  | .undefined => "undefined"
  | .null => "object"
  | .bool _ => "boolean"
  | .num _ => "number"
  | .str _ => "string"
  | .arr _ => "object"
  | .obj _ => "object"

/-- Nullish test: the two values on which property access throws and which
`?.` short-circuits. -/
def isNullish : JSVal → Bool
  | .undefined => true
  | .null => true
  | _ => false

/-- Property access `base.key` on a non-nullish base: own fields of objects,
`length` of arrays and strings; everything else reads as `undefined`. -/
def jsGet : JSVal → String → JSVal
  | .obj fs, k =>
    match fs.lookup k with
    | some v => v
    | none => .undefined
  | .arr xs, k => if k = "length" then .num xs.length else .undefined
  | .str s, k => if k = "length" then .num s.length else .undefined
  | _, _ => .undefined

/-- Strict equality `v === s` against a string literal: no coercion, true
exactly for the same string. -/
def strictEqStr (v : JSVal) (s : String) : Bool :=
  match v with
  | .str t => t = s
  | _ => false

/-- Model of `isLoadAgentStateQuery` (src/lib/agent-state-loader.ts lines
35-41).  The source returns the raw value of the expression
`body && typeof body === 'object' && body.operationName === 'loadAgentState'`.
With JavaScript `&&` semantics the result is `body` itself whenever `body`
is falsy, and otherwise the boolean value of the remaining conjuncts; the
branching below is exactly that short-circuit evaluation (the property read
only happens once `body` is known to be a truthy object, so it cannot
throw). -/
def isLoadAgentStateQuery (body : JSVal) : JSVal :=
  if truthy body then
    if typeOf body = "object" then
      .bool (strictEqStr (jsGet body "operationName") "loadAgentState")
    else .bool false
  else body

/-- One step of an optional chain in a semantics where plain property access
on a nullish base throws a `TypeError` (`Except.error`), while `?.`
short-circuits a nullish base to `undefined`. -/
def optChainE (m : Except Unit JSVal) (key : String) : Except Unit JSVal :=
  match m with
  | .error e => .error e
  | .ok v => if isNullish v then .ok .undefined else .ok (jsGet v key)

/-- Total value of one optional-chain step, for stating properties. -/
def optChain (v : JSVal) (key : String) : JSVal :=
  if isNullish v then .undefined else jsGet v key

/-- The raw value of the chain `body?.variables?.data?.<key>`, before the
`|| null` coercion applied by the extractors. -/
def rawPath (body : JSVal) (key : String) : JSVal :=
  optChain (optChain (optChain body "variables") "data") key

/-- The `try`-block body of `extractThreadId` (lines 46-52):
`body?.variables?.data?.threadId || null`, evaluated in the throwing
semantics. -/
def extractThreadIdE (body : JSVal) : Except Unit JSVal :=
  match optChainE (optChainE (optChainE (.ok body) "variables") "data") "threadId" with
  | .error e => .error e
  | .ok v => .ok (if truthy v then v else .null)

/-- Model of `extractThreadId`: the `try` body with the `catch` that returns
`null`. -/
def extractThreadId (body : JSVal) : JSVal :=
  match extractThreadIdE body with
  | .ok v => v
  | .error _ => .null

/-- The `try`-block body of `extractAgentName` (lines 57-63):
`body?.variables?.data?.agentName || null`. -/
def extractAgentNameE (body : JSVal) : Except Unit JSVal :=
  match optChainE (optChainE (optChainE (.ok body) "variables") "data") "agentName" with
  | .error e => .error e
  | .ok v => .ok (if truthy v then v else .null)

/-- Model of `extractAgentName`: the `try` body with the `catch` that
returns `null`. -/
def extractAgentName (body : JSVal) : JSVal :=
  match extractAgentNameE body with
  | .ok v => v
  | .error _ => .null

/-! ### The state fetch client and the response composer -/

/-- Outcome of the single outbound `fetch` of `loadStateFromAgent`: the
timeout fired (`AbortError`), the transport failed with some other
exception, or an HTTP response arrived with the given status code and body
text. -/
inductive FetchOutcome where
  | abortError : FetchOutcome
  | transportError : FetchOutcome
  | response : Nat → String → FetchOutcome

/-- The `Response.ok` flag: status in the inclusive range 200 to 299. -/
def responseOk (status : Nat) : Bool := 200 ≤ status && status < 300

/-- Truthiness of a JSON value, as used by `data.messages || []`. -/
def jTruthy : JVal → Bool
  | .jNull => false
  | .jBool b => b
  | .jNum n => n != 0
  | .jStr s => s != ""
  | .jArr _ => true
  | .jObj _ => true

/-- Property read `v.key` on a value produced by `response.json()`:
`error` is the `TypeError` thrown on a nullish base, `ok none` an absent
property (`undefined`), `ok (some w)` a present one.  `length` of arrays
and strings is the only non-own property the loader touches. -/
def jReadE : JVal → String → Except Unit (Option JVal)
  | .jNull, _ => .error ()
  | .jObj fs, k => .ok (fs.lookup k)
  | .jArr xs, k => .ok (if k = "length" then some (.jNum xs.length) else none)
  | .jStr s, k => .ok (if k = "length" then some (.jNum s.length) else none)
  | _, _ => .ok none

/-- JavaScript `x || d` where `x` is the value of a property read (`none`
when the property was absent). -/
def jOrDefault : Option JVal → JVal → JVal
  | none, d => d
  | some v, d => if jTruthy v then v else d

/-- Tail of the `try` block of `loadStateFromAgent` once a 2xx response body
has parsed to `data` (lines 108-115): the logging statement evaluates
`data.messages.length`, which throws when `data` is `null` or when
`data.messages` is absent or `null`; only then does the function build
`{messages: data.messages || [], state: data.state || {}}`. -/
def processBody (data : JVal) : Except Unit (JVal × JVal) :=
  match jReadE data "messages" with
  | .error e => .error e
  | .ok none => .error ()
  | .ok (some .jNull) => .error ()
  | .ok (some m) =>
    match jReadE data "state" with
    | .error e => .error e
    | .ok stProp =>
      .ok (jOrDefault (some m) (.jArr []), jOrDefault stProp (.jObj []))

/-- Model of `loadStateFromAgent` (lines 68-127), parameterised by the
outcome of its one outbound call.  The result is the pair of runtime values
`(messages, state)` the promise resolves with.  Every failure path of the
source (`AbortError` from the timeout, transport exceptions, non-2xx
status, a body `response.json()` cannot parse, and the `TypeError` raised
by the logging line) collapses to the empty state and nothing escapes the
`try`/`catch`, so the model is a total function. -/
def loadStateFromAgent (outcome : FetchOutcome) : JVal × JVal :=
  match outcome with
  | .abortError => (.jArr [], .jObj [])
  | .transportError => (.jArr [], .jObj [])
  | .response status body =>
    if !responseOk status then (.jArr [], .jObj [])
    else
      match jsonParse body with
      | none => (.jArr [], .jObj [])
      | some data =>
        match processBody data with
        | .ok pair => pair
        | .error _ => (.jArr [], .jObj [])

/-- The TypeScript `AgentState` interface (lines 20-23): an ordered list of
message values plus an opaque state object.  Individual messages are
arbitrary JSON values; the TypeScript side types them as `AGUIMessage`
objects but enforces nothing beyond what `JSON.parse` produced. -/
structure AgentState where
  messages : List JVal
  state : List (String × JVal)

/-- The TypeScript `LoadStateResponse` interface (lines 25-30); `messages`
and `state` carry JSON text. -/
structure LoadStateResponse where
  threadId : String
  threadExists : Bool
  messages : String
  state : String

/-- Model of `createLoadStateResponse` (lines 132-144). -/
def createLoadStateResponse (threadId : String) (agentState : AgentState) :
    LoadStateResponse :=
  let threadExists := decide (agentState.messages.length > 0)
  { threadId := threadId
    threadExists := threadExists
    messages := jsonStringify (.jArr agentState.messages)
    state := jsonStringify (.jObj agentState.state) }

/-! ### The outbound request -/

/-- Model of `agentUrl.replace(/\/$/, '')` (line 81): the anchored regex
removes one trailing slash when present. -/
def stripTrailingSlash (s : String) : String :=
  if s.data.getLast? = some '/' then String.mk s.data.dropLast else s

/-- The URL `loadStateFromAgent` posts to. -/
def loadStateUrl (agentUrl : String) : String :=
  stripTrailingSlash agentUrl ++ "/load_state"

/-- An outbound HTTP request as `fetch` receives it. -/
structure OutboundRequest where
  method : String
  contentType : String
  url : String
  body : String

/-- The request built at lines 81-96: `POST` to the `/load_state` URL with
the JSON content type and body `JSON.stringify({threadId})`. -/
def loadStateRequest (agentUrl threadId : String) : OutboundRequest :=
  { method := "POST"
    contentType := "application/json"
    url := loadStateUrl agentUrl
    body := jsonStringify (.jObj [("threadId", .jStr threadId)]) }

/-- All outbound requests one invocation of `loadStateFromAgent` issues.
The source contains a single `fetch` call reached on every control path
before the `catch`, and no retry construct, so the list has one element. -/
def loadStateRequests (agentUrl threadId : String) : List OutboundRequest :=
  [loadStateRequest agentUrl threadId]

/-! ### Supporting lemmas for the payload helpers -/

theorem strictEqStr_eq_true_iff (v : JSVal) (s : String) :
    strictEqStr v s = true ↔ v = .str s := by
  cases v <;> simp [strictEqStr]

theorem optChainE_ok (b : JSVal) (k : String) :
    optChainE (.ok b) k = .ok (optChain b k) := by
  by_cases h : isNullish b <;> simp [optChainE, optChain, h]

theorem extractThreadIdE_eq (body : JSVal) :
    extractThreadIdE body =
      .ok (if truthy (rawPath body "threadId") then rawPath body "threadId" else .null) := by
  rw [extractThreadIdE, optChainE_ok, optChainE_ok, optChainE_ok]
  rfl

theorem extractAgentNameE_eq (body : JSVal) :
    extractAgentNameE body =
      .ok (if truthy (rawPath body "agentName") then rawPath body "agentName" else .null) := by
  rw [extractAgentNameE, optChainE_ok, optChainE_ok, optChainE_ok]
  rfl

theorem extractThreadId_eq (body : JSVal) :
    extractThreadId body =
      if truthy (rawPath body "threadId") then rawPath body "threadId" else .null := by
  rw [extractThreadId, extractThreadIdE_eq]

theorem extractAgentName_eq (body : JSVal) :
    extractAgentName body =
      if truthy (rawPath body "agentName") then rawPath body "agentName" else .null := by
  rw [extractAgentName, extractAgentNameE_eq]

/-! ### The claims -/

/-- C1: `createLoadStateResponse` sets `threadExists` to `true` exactly when
the input messages array is non-empty; equivalently, in every response it
produces, the serialised `messages` text parses back to exactly the input
array, and `threadExists` equals the decision of `messages.length > 0`, so
no input produces a mismatch. -/
theorem c1_threadExists_iff_messages_nonempty (threadId : String) (st : AgentState) :
    ((createLoadStateResponse threadId st).threadExists = true ↔ st.messages ≠ []) ∧
    jsonParse (createLoadStateResponse threadId st).messages = some (.jArr st.messages) ∧
    (createLoadStateResponse threadId st).threadExists
      = decide (0 < st.messages.length) := by
  refine ⟨?_, jsonParse_jsonStringify _, rfl⟩
  show decide (0 < st.messages.length) = true ↔ st.messages ≠ []
  simp [List.length_pos]

/-- C1 witness: the equivalence instantiated at a concrete single-message
state. -/
theorem c1_witness :
    ((createLoadStateResponse "t1" ⟨[.jStr "hi"], []⟩).threadExists = true ↔
      [JVal.jStr "hi"] ≠ []) ∧
    jsonParse (createLoadStateResponse "t1" ⟨[.jStr "hi"], []⟩).messages
      = some (.jArr [.jStr "hi"]) ∧
    (createLoadStateResponse "t1" ⟨[.jStr "hi"], []⟩).threadExists
      = decide (0 < [JVal.jStr "hi"].length) :=
  c1_threadExists_iff_messages_nonempty "t1" ⟨[.jStr "hi"], []⟩

/-- C2: every failing invocation of `loadStateFromAgent` — timeout abort,
transport exception, non-2xx status, or a body `response.json()` rejects —
resolves (never throws) with the empty state, and composing that state with
`createLoadStateResponse` yields exactly
`{threadId, threadExists: false, messages: "[]", state: "{}"}`. -/
theorem c2_failure_empty_state (outcome : FetchOutcome) (threadId : String)
    (hfail : outcome = .abortError ∨ outcome = .transportError ∨
      (∃ status body, outcome = .response status body ∧ responseOk status = false) ∨
      (∃ status body, outcome = .response status body ∧ jsonParse body = none)) :
    loadStateFromAgent outcome = (.jArr [], .jObj []) ∧
    createLoadStateResponse threadId ⟨[], []⟩ =
      { threadId := threadId, threadExists := false,
        messages := "[]", state := String.mk ['{', '}'] } := by
  refine ⟨?_, rfl⟩
  rcases hfail with rfl | rfl | ⟨status, body, rfl, hbad⟩ | ⟨status, body, rfl, hbad⟩
  · rfl
  · rfl
  · simp [loadStateFromAgent, hbad]
  · by_cases hok : responseOk status <;> simp [loadStateFromAgent, hok, hbad]

/-- C2 witness: the timeout outcome instantiated with a concrete thread
identifier. -/
theorem c2_witness :
    (FetchOutcome.abortError = .abortError ∨ FetchOutcome.abortError = .transportError ∨
      (∃ status body, FetchOutcome.abortError = .response status body ∧
        responseOk status = false) ∨
      (∃ status body, FetchOutcome.abortError = .response status body ∧
        jsonParse body = none)) ∧
    (loadStateFromAgent .abortError = (.jArr [], .jObj []) ∧
      createLoadStateResponse "t2" ⟨[], []⟩ =
        { threadId := "t2", threadExists := false,
          messages := "[]", state := String.mk ['{', '}'] }) :=
  ⟨Or.inl rfl, c2_failure_empty_state .abortError "t2" (Or.inl rfl)⟩

/-- C3: for a fetched state with a non-empty messages array, the composed
response has `threadExists = true` and a `messages` text that deserialises
to exactly the fetched array — same entries, same order. -/
theorem c3_nonempty_roundtrip (threadId : String) (st : AgentState)
    (h : st.messages ≠ []) :
    (createLoadStateResponse threadId st).threadExists = true ∧
    jsonParse (createLoadStateResponse threadId st).messages
      = some (.jArr st.messages) := by
  refine ⟨?_, jsonParse_jsonStringify _⟩
  show decide (0 < st.messages.length) = true
  simp [List.length_pos, h]

/-- C3 witness: a concrete two-message state round-trips with the existence
flag set. -/
theorem c3_witness :
    ([JVal.jStr "hello", JVal.jStr "world"] ≠ ([] : List JVal)) ∧
    ((createLoadStateResponse "t3" ⟨[.jStr "hello", .jStr "world"], []⟩).threadExists
        = true ∧
      jsonParse (createLoadStateResponse "t3" ⟨[.jStr "hello", .jStr "world"], []⟩).messages
        = some (.jArr [.jStr "hello", .jStr "world"])) :=
  ⟨by simp, c3_nonempty_roundtrip "t3" ⟨[.jStr "hello", .jStr "world"], []⟩ (by simp)⟩

/-- C4 counterexample: on the `null` payload the classifier returns `null`
itself — JavaScript `&&` yields its falsy left operand — not the literal
`false` the claim asserts for every non-matching payload. -/
theorem c4_counterexample :
    isLoadAgentStateQuery .null = .null ∧ JSVal.null ≠ JSVal.bool false :=
  ⟨rfl, fun h => nomatch h⟩

/-- C4 amended: classification is an exact match on `operationName` up to
truthiness — the classifier returns a truthy value exactly when the payload
is a non-null object (or array) whose `operationName` is exactly the string
`loadAgentState`; every other payload yields a falsy result, namely the
literal `false` for truthy payloads and the falsy payload itself (for
example `null` or `undefined`) otherwise. -/
theorem c4_classifier_truthiness (body : JSVal) :
    (truthy (isLoadAgentStateQuery body) = true ↔
      (truthy body = true ∧ typeOf body = "object" ∧
        jsGet body "operationName" = .str "loadAgentState")) ∧
    (truthy body = false → isLoadAgentStateQuery body = body) ∧
    (truthy body = true → typeOf body ≠ "object" →
      isLoadAgentStateQuery body = .bool false) := by
  refine ⟨?_, ?_, ?_⟩
  · by_cases ht : truthy body = true
    · by_cases hty : typeOf body = "object"
      · rw [isLoadAgentStateQuery, if_pos ht, if_pos hty]
        show strictEqStr (jsGet body "operationName") "loadAgentState" = true ↔ _
        rw [strictEqStr_eq_true_iff]
        simp [ht, hty]
      · rw [isLoadAgentStateQuery, if_pos ht, if_neg hty]
        show false = true ↔ _
        simp [hty]
    · rw [isLoadAgentStateQuery, if_neg ht]
      simp [ht]
  · intro ht
    rw [isLoadAgentStateQuery, if_neg (by simp [ht])]
  · intro ht hty
    rw [isLoadAgentStateQuery, if_pos ht, if_neg hty]

/-- C4 witness: the amended classification instantiated at a concrete
matching payload. -/
theorem c4_witness :
    (truthy (isLoadAgentStateQuery (.obj [("operationName", .str "loadAgentState")]))
        = true ↔
      (truthy (JSVal.obj [("operationName", .str "loadAgentState")]) = true ∧
        typeOf (JSVal.obj [("operationName", .str "loadAgentState")]) = "object" ∧
        jsGet (JSVal.obj [("operationName", .str "loadAgentState")]) "operationName"
          = .str "loadAgentState")) ∧
    (truthy (JSVal.obj [("operationName", .str "loadAgentState")]) = false →
      isLoadAgentStateQuery (.obj [("operationName", .str "loadAgentState")])
        = .obj [("operationName", .str "loadAgentState")]) ∧
    (truthy (JSVal.obj [("operationName", .str "loadAgentState")]) = true →
      typeOf (JSVal.obj [("operationName", .str "loadAgentState")]) ≠ "object" →
      isLoadAgentStateQuery (.obj [("operationName", .str "loadAgentState")])
        = .bool false) :=
  c4_classifier_truthiness (.obj [("operationName", .str "loadAgentState")])

/-- C5 counterexample: with `variables.data.threadId` present and equal to
the empty string, `extractThreadId` returns `null` rather than the present
value, because the source coerces every falsy chain value through
`|| null`. -/
theorem c5_counterexample :
    extractThreadId
        (.obj [("variables", .obj [("data", .obj [("threadId", .str "")])])])
      = .null ∧
    rawPath (.obj [("variables", .obj [("data", .obj [("threadId", .str "")])])])
        "threadId"
      = .str "" :=
  ⟨rfl, rfl⟩

/-- C5 amended: the extractors never throw — the optional chain makes the
`try` body total — and each returns the value found at
`variables.data.threadId` (respectively `.agentName`) when that value is
present and truthy, and `null` when the path is absent; a present falsy
value is also coerced to `null`. -/
theorem c5_extractors_total (body : JSVal) :
    (∃ v, extractThreadIdE body = .ok v ∧ extractThreadId body = v) ∧
    (∃ v, extractAgentNameE body = .ok v ∧ extractAgentName body = v) ∧
    (rawPath body "threadId" = .undefined → extractThreadId body = .null) ∧
    (rawPath body "agentName" = .undefined → extractAgentName body = .null) ∧
    (truthy (rawPath body "threadId") = true →
      extractThreadId body = rawPath body "threadId") ∧
    (truthy (rawPath body "agentName") = true →
      extractAgentName body = rawPath body "agentName") := by
  refine ⟨?_, ?_, ?_, ?_, ?_, ?_⟩
  · exact ⟨_, extractThreadIdE_eq body, by rw [extractThreadId, extractThreadIdE_eq]⟩
  · exact ⟨_, extractAgentNameE_eq body, by rw [extractAgentName, extractAgentNameE_eq]⟩
  · intro h
    rw [extractThreadId_eq, h]
    rfl
  · intro h
    rw [extractAgentName_eq, h]
    rfl
  · intro h
    rw [extractThreadId_eq, if_pos h]
  · intro h
    rw [extractAgentName_eq, if_pos h]

/-- Concrete classifier payload used by the C5 witness. -/
def payload5 : JSVal :=
  .obj [("variables",
    .obj [("data", .obj [("threadId", .str "T5"), ("agentName", .str "A5")])])]

/-- C5 witness: the amended contract instantiated at a concrete payload
carrying both identifiers. -/
theorem c5_witness :
    ((∃ v, extractThreadIdE payload5 = .ok v ∧ extractThreadId payload5 = v) ∧
      (∃ v, extractAgentNameE payload5 = .ok v ∧ extractAgentName payload5 = v) ∧
      (rawPath payload5 "threadId" = .undefined → extractThreadId payload5 = .null) ∧
      (rawPath payload5 "agentName" = .undefined → extractAgentName payload5 = .null) ∧
      (truthy (rawPath payload5 "threadId") = true →
        extractThreadId payload5 = rawPath payload5 "threadId") ∧
      (truthy (rawPath payload5 "agentName") = true →
        extractAgentName payload5 = rawPath payload5 "agentName")) ∧
    extractThreadId payload5 = .str "T5" :=
  ⟨c5_extractors_total payload5, (c5_extractors_total payload5).2.2.2.2.1 rfl⟩

/-- C6: the composer is a total pure function of its two arguments — it is
defined for every thread id and every `AgentState`, echoes the thread id,
derives `threadExists` from `messages.length > 0`, and fills `messages` and
`state` with JSON text that parses back to exactly the input messages array
and state object, so serialisation is faithful and cannot fail. -/
theorem c6_composer_total (threadId : String) (st : AgentState) :
    (createLoadStateResponse threadId st).threadId = threadId ∧
    (createLoadStateResponse threadId st).threadExists
      = decide (0 < st.messages.length) ∧
    jsonParse (createLoadStateResponse threadId st).messages
      = some (.jArr st.messages) ∧
    jsonParse (createLoadStateResponse threadId st).state
      = some (.jObj st.state) :=
  ⟨rfl, rfl, jsonParse_jsonStringify _, jsonParse_jsonStringify _⟩

/-- C7 counterexample: for a base URL ending in a slash the source first
strips that slash, so the URL used is not the literal concatenation of the
base URL and `/load_state`. -/
theorem c7_counterexample :
    (loadStateRequest "http://agent.local/" "t7").url = "http://agent.local/load_state" ∧
    "http://agent.local/" ++ "/load_state" = "http://agent.local//load_state" ∧
    "http://agent.local/load_state" ≠ "http://agent.local//load_state" := by
  refine ⟨?_, rfl, by decide⟩
  show loadStateUrl "http://agent.local/" = "http://agent.local/load_state"
  rw [loadStateUrl, stripTrailingSlash, if_pos (by decide)]
  decide

/-- C7 amended: one invocation issues exactly one outbound request — a POST
whose URL is the agent base URL with one trailing slash stripped when
present, followed by `/load_state`, and whose JSON body parses back to
exactly the object carrying the thread identifier and nothing else. -/
theorem c7_single_request (agentUrl threadId : String) :
    loadStateRequests agentUrl threadId = [loadStateRequest agentUrl threadId] ∧
    (loadStateRequests agentUrl threadId).length = 1 ∧
    (loadStateRequest agentUrl threadId).method = "POST" ∧
    (loadStateRequest agentUrl threadId).url
      = stripTrailingSlash agentUrl ++ "/load_state" ∧
    jsonParse (loadStateRequest agentUrl threadId).body
      = some (.jObj [("threadId", .jStr threadId)]) :=
  ⟨rfl, rfl, rfl, rfl, jsonParse_jsonStringify _⟩

/-- C8: state loads are deterministic and idempotent — the fetched state and
the composed response are functions of the fetch outcome and the thread id
alone, with no hidden state in the layer, so two sequential runs over equal
inputs (no intervening agent-side mutation) produce identical responses. -/
theorem c8_idempotent (threadId : String) (o1 o2 : FetchOutcome)
    (st1 st2 : AgentState) (ho : o1 = o2) (hst : st1 = st2) :
    loadStateFromAgent o1 = loadStateFromAgent o2 ∧
    createLoadStateResponse threadId st1 = createLoadStateResponse threadId st2 := by
  subst ho
  subst hst
  exact ⟨rfl, rfl⟩

/-- C8 witness: determinism instantiated at a concrete outcome and state. -/
theorem c8_witness :
    loadStateFromAgent .abortError = loadStateFromAgent .abortError ∧
    createLoadStateResponse "t8" ⟨[.jNull], []⟩
      = createLoadStateResponse "t8" ⟨[.jNull], []⟩ :=
  c8_idempotent "t8" .abortError .abortError ⟨[.jNull], []⟩ ⟨[.jNull], []⟩ rfl rfl

/-- C9: the extractors coerce every falsy present chain value to `null` —
in particular an empty-string identifier is indistinguishable from an
absent one at the public interface. -/
theorem c9_falsy_coerced (body : JSVal)
    (h1 : truthy (rawPath body "threadId") = false)
    (h2 : truthy (rawPath body "agentName") = false) :
    extractThreadId body = .null ∧ extractAgentName body = .null := by
  constructor
  · rw [extractThreadId_eq, if_neg (by simp [h1])]
  · rw [extractAgentName_eq, if_neg (by simp [h2])]

/-- Concrete payload with empty-string identifiers used by the C9
witness. -/
def payload9 : JSVal :=
  .obj [("variables",
    .obj [("data", .obj [("threadId", .str ""), ("agentName", .str "")])])]

/-- C9 witness: a payload carrying empty-string identifiers routes to
`null` for both extractors. -/
theorem c9_witness :
    truthy (rawPath payload9 "threadId") = false ∧
    truthy (rawPath payload9 "agentName") = false ∧
    (extractThreadId payload9 = .null ∧ extractAgentName payload9 = .null) :=
  ⟨rfl, rfl, c9_falsy_coerced payload9 rfl rfl⟩

/-- C10: a 2xx response whose parsed JSON body lacks a `messages` value
(absent or `null`) makes `loadStateFromAgent` return the fully empty state,
discarding any `state` object present in the body, because the logging
statement evaluates `data.messages.length` — which throws — before the
`data.messages || []` and `data.state || {}` fallbacks run. -/
theorem c10_missing_messages_discards_state (status : Nat) (body : String)
    (data : JVal) (hok : responseOk status = true)
    (hparse : jsonParse body = some data)
    (hmiss : jReadE data "messages" = .ok none ∨
      jReadE data "messages" = .ok (some .jNull)) :
    loadStateFromAgent (.response status body) = (.jArr [], .jObj []) := by
  rcases hmiss with h | h <;>
    simp [loadStateFromAgent, hok, hparse, processBody, h]

/-- C10 witness: a 200 response whose body carries only a non-empty `state`
object still collapses to the empty state. -/
theorem c10_witness :
    responseOk 200 = true ∧
    jsonParse (jsonStringify (.jObj [("state", .jObj [("a", .jStr "x")])]))
      = some (.jObj [("state", .jObj [("a", .jStr "x")])]) ∧
    jReadE (.jObj [("state", .jObj [("a", .jStr "x")])]) "messages" = .ok none ∧
    loadStateFromAgent
        (.response 200 (jsonStringify (.jObj [("state", .jObj [("a", .jStr "x")])])))
      = (.jArr [], .jObj []) :=
  ⟨rfl, jsonParse_jsonStringify _, rfl,
    c10_missing_messages_discards_state 200 _ _ rfl (jsonParse_jsonStringify _)
      (Or.inl rfl)⟩
